import Mathlib

/-!
Verification of two libosmium components against their specification:

* `osmium::index::map::SparseTable<TId, TValue>`
  (src/include/osmium/index/map/sparse_table.hpp), a sparse positional
  index backed by a `google::sparsetable<TValue>`;
* `osmium::thread::function_wrapper`
  (src/include/osmium/thread/function_wrapper.hpp), a move-only task handle.

Modelling conventions:

* `TId` is a 64-bit unsigned integer type (the class carries a
  `static_assert` that it only works on 64-bit machines, and the spec fixes
  the serialized key width at 8 bytes).  Ids are `Nat` and arithmetic that
  the C++ code performs in `TId` is taken `% 2 ^ 64`.
* The `google::sparsetable<TValue>` is a sequence of slots, each either
  assigned (holding a `TValue`) or unassigned; it is modelled as a
  `List (Option V)` with `none` for an unassigned slot.  `resize` keeps
  existing slots (truncating if the new size is smaller) and adds
  unassigned slots; `operator[]` assignment marks the slot assigned;
  reading an unassigned slot yields a default-constructed `TValue`;
  `num_nonempty()` counts assigned slots.  Writing `m_elements[id]` with
  `id >= size()` is out of range (undefined behavior), so the model's
  `set` returns `none` in that case.
* Callables handed to `function_wrapper` are modelled as state
  transformers `S → S` over an abstract state `S` (for example a shared
  counter `S = Nat`); "executing the callable exactly once" is visible as
  exactly one application of the transformer to the state.
-/

namespace Osmium

/-- The modulus of the 64-bit unsigned id type `TId`. -/
def idMod : Nat := 2 ^ 64

/-- Modelled from the spec: `osmium::index::empty_value<TValue>()` is declared
in osmium/index/map.hpp, which is not among the sources; per the spec it is
the reserved "empty sentinel" bit pattern of `V` ("no data present"), and a
key that was never written must report NotFound, so a never-assigned
sparsetable slot (which reads back as a default-constructed `TValue`) reads
back as exactly this sentinel.  `slotRead e s` is the value obtained by
reading slot `s` when the sentinel is `e`. -/
def slotRead {V : Type} (emptyV : V) (s : Option V) : V := s.getD emptyV

/-- State of `osmium::index::map::SparseTable<TId, TValue>`: the member
`m_grow_size : TId` and the member `m_elements : google::sparsetable<TValue>`
(a slot sequence, `none` = unassigned slot). -/
structure SparseTable (V : Type) where
  m_grow_size : Nat
  m_elements : List (Option V)
deriving DecidableEq

namespace SparseTable

variable {V : Type}

/-- Constructor (sparse_table.hpp lines 82-85): `m_grow_size(grow_size)`,
`m_elements(grow_size)` — the sparsetable starts with `grow_size` slots,
all unassigned. -/
def mkTable (V : Type) (grow_size : Nat) : SparseTable V :=
  ⟨grow_size, List.replicate grow_size none⟩

/-- `google::sparsetable::resize(n)`: existing slots are kept (truncated when
`n` is smaller than the current size); newly added slots are unassigned. -/
def resizeSlots (l : List (Option V)) (n : Nat) : List (Option V) :=
  l.take n ++ List.replicate (n - l.length) none

/-- `SparseTable::size` (lines 106-108): `m_elements.size()`. -/
def size (t : SparseTable V) : Nat := t.m_elements.length

/-- `google::sparsetable::num_nonempty()`: the number of assigned slots. -/
def num_nonempty (t : SparseTable V) : Nat :=
  (t.m_elements.filter Option.isSome).length

/-- `SparseTable::set` (lines 89-94): if `id >= m_elements.size()`, resize to
`id + m_grow_size` (arithmetic in the 64-bit unsigned `TId`, hence
`% 2 ^ 64`), then `m_elements[id] = value`.  The write requires
`id < size()` (a `google::sparsetable` does not grow on `operator[]`);
an out-of-range write is undefined behavior, modelled as `none`. -/
def set (t : SparseTable V) (id : Nat) (v : V) : Option (SparseTable V) :=
  let elems :=
    if t.m_elements.length ≤ id then
      resizeSlots t.m_elements ((id + t.m_grow_size) % idMod)
    else t.m_elements
  if id < elems.length then
    some { t with m_elements := elems.set id (some v) }
  else none

/-- The value read from slot `id` of the table (out-of-range reads do not
occur in `get`, which checks the bound first; `getD` with `none` only totalizes
the model). -/
def slotAt (emptyV : V) (t : SparseTable V) (id : Nat) : V :=
  slotRead emptyV (t.m_elements.getD id none)

/-- `SparseTable::get` (lines 96-104): `not_found_error` (declared in
osmium/index/map.hpp, not among the sources, modelled per the spec as the
NotFound outcome, i.e. `none`) if `id >= m_elements.size()` or the slot
equals `empty_value<TValue>()`; otherwise the stored value. -/
def get [DecidableEq V] (emptyV : V) (t : SparseTable V) (id : Nat) : Option V :=
  if t.size ≤ id then none
  else if t.slotAt emptyV id = emptyV then none
  else some (t.slotAt emptyV id)

/-- `SparseTable::used_memory` (lines 110-114):
`m_elements.size() / 8 + m_elements.num_nonempty() * sizeof(TValue)`.
`sizeV` stands for `sizeof(TValue)`. -/
def used_memory (sizeV : Nat) (t : SparseTable V) : Nat :=
  t.size / 8 + t.num_nonempty * sizeV

/-- `SparseTable::clear` (lines 116-118): `m_elements.clear()`; per the spec
this releases all storage and the capacity becomes 0 (`m_grow_size` is
untouched). -/
def clear (t : SparseTable V) : SparseTable V := { t with m_elements := [] }

end SparseTable

/-- The dump loop counter `n` in `SparseTable::dump_as_list` is a C++ `int`
(32-bit signed).  For true 0-based position `p`, the counter holds the
two's-complement 32-bit wrap of `p`: writing `r := p % 2^32`, the counter's
signed value is `r` when `r < 2^31` and `r - 2^32` otherwise.  Storing it
into the `std::pair<TId, TValue>` converts it to the 64-bit unsigned `TId`,
i.e. reduces the signed value mod `2^64`, which yields `r` in the first
case and `2^64 - 2^32 + r` in the second.  `cppCounterId p` is the key that
ends up in the emitted record for position `p`. -/
def cppCounterId (p : Nat) : Nat :=
  if p % 2 ^ 32 < 2 ^ 31 then p % 2 ^ 32 else 2 ^ 64 - 2 ^ 32 + p % 2 ^ 32

/-- Loop of `SparseTable::dump_as_list` (lines 120-130): iterate over all
slots in order (a range-for over a `google::sparsetable` visits every
position, reading unassigned slots as the default value), emitting a
`(TId(n), value)` pair for every slot whose value differs from
`empty_value<TValue>()`, and incrementing the `int` counter `n` for every
slot. -/
def dumpLoop {V : Type} [DecidableEq V] (emptyV : V) :
    List (Option V) → Nat → List (Nat × V)
  | [], _ => []
  | s :: rest, p =>
    if slotRead emptyV s = emptyV then dumpLoop emptyV rest (p + 1)
    else (cppCounterId p, slotRead emptyV s) :: dumpLoop emptyV rest (p + 1)

/-- `SparseTable::dump_as_list` (lines 120-130) as the list of records it
writes: the vector `v` built by the loop.  (The `reliable_write` byte sink is
external to this core; the bytes written are exactly these records, see
`SparseTable.dumpBytes`.) -/
def SparseTable.dump_as_list {V : Type} [DecidableEq V] (emptyV : V)
    (t : SparseTable V) : List (Nat × V) :=
  dumpLoop emptyV t.m_elements 0

/-- Spec-side definition ("occupied slot: a position holding a value other
than the empty sentinel"): the `(position, value)` pairs of the occupied
slots, in ascending position order, with the key equal to the true slot
position.  This is what the spec says `dump` emits; compare `dumpLoop`,
which is the source's loop with its `int` counter. -/
def specPairsLoop {V : Type} [DecidableEq V] (emptyV : V) :
    List (Option V) → Nat → List (Nat × V)
  | [], _ => []
  | s :: rest, p =>
    if slotRead emptyV s = emptyV then specPairsLoop emptyV rest (p + 1)
    else (p, slotRead emptyV s) :: specPairsLoop emptyV rest (p + 1)

/-- The set of `(key, value)` pairs of the occupied slots of the table
(spec-side, keys are true positions). -/
def SparseTable.occupiedPairs {V : Type} [DecidableEq V] (emptyV : V)
    (t : SparseTable V) : List (Nat × V) :=
  specPairsLoop emptyV t.m_elements 0

/-- The number of occupied slots (spec-side: slots holding a value other
than the empty sentinel). -/
def SparseTable.occupiedCount {V : Type} [DecidableEq V] (emptyV : V)
    (t : SparseTable V) : Nat :=
  (t.m_elements.filter (fun s => decide (slotRead emptyV s ≠ emptyV))).length

/-! ### Serialization of dump records

Per the spec's dump binary layout, each record is `{ key: 8-byte unsigned,
value: sizeof(V) bytes }` in native (little-endian) byte order, written as a
flat sequence with no header.  (The source writes the raw
`std::vector<std::pair<TId, TValue>>` buffer; for a `TValue` whose size is a
multiple of its alignment this is exactly the 8 + sizeof(V) byte records.) -/

/-- The 8 little-endian bytes of a 64-bit key. -/
def encodeKey (k : Nat) : List Nat :=
  [k % 256, k / 256 % 256, k / 256 ^ 2 % 256, k / 256 ^ 3 % 256,
   k / 256 ^ 4 % 256, k / 256 ^ 5 % 256, k / 256 ^ 6 % 256, k / 256 ^ 7 % 256]

/-- Decode a little-endian byte list back into a natural number. -/
def decodeKeyLE (bs : List Nat) : Nat :=
  bs.foldr (fun b acc => b + 256 * acc) 0

/-- Concatenated fixed-width record encodings: for each record, the 8 key
bytes followed by the `sizeof(V)` value bytes produced by `encV`. -/
def encodeRecords {V : Type} (encV : V → List Nat) : List (Nat × V) → List Nat
  | [] => []
  | r :: rs => encodeKey r.1 ++ encV r.2 ++ encodeRecords encV rs

/-- The byte stream `dump_as_list` hands to the byte sink: its record vector
serialized as fixed-width records. -/
def SparseTable.dumpBytes {V : Type} [DecidableEq V] (emptyV : V)
    (encV : V → List Nat) (t : SparseTable V) : List Nat :=
  encodeRecords encV (t.dump_as_list emptyV)

/-- Parse a byte stream as fixed-width `(key, value)` records: 8 key bytes
(little-endian) then `sizeV` value bytes, repeatedly.  `fuel` bounds the
recursion (each record consumes at least one byte). -/
def parseRecordsAux {V : Type} (sizeV : Nat) (decV : List Nat → V) :
    Nat → List Nat → List (Nat × V)
  | 0, _ => []
  | _ + 1, [] => []
  | fuel + 1, b :: bs =>
    (decodeKeyLE ((b :: bs).take 8), decV (((b :: bs).drop 8).take sizeV)) ::
      parseRecordsAux sizeV decV fuel ((b :: bs).drop (8 + sizeV))

/-- Parse a byte stream as the spec's flat sequence of fixed-width records. -/
def parseRecords {V : Type} (sizeV : Nat) (decV : List Nat → V)
    (bs : List Nat) : List (Nat × V) :=
  parseRecordsAux sizeV decV bs.length bs

/-! ### Operation sequences on the index -/

/-- A mutating operation on the index: `set(k, v)` or `clear()` (the other
operations `get`, `size`, `used_memory`, `dump_as_list` are `const` and do
not change the state). -/
inductive TableOp (V : Type) where
  | setOp (k : Nat) (v : V)
  | clearOp
deriving DecidableEq

/-- Apply one operation; a `set` whose slot write is out of range yields
`none` (undefined behavior, see `SparseTable.set`). -/
def applyOp {V : Type} (t : SparseTable V) : TableOp V → Option (SparseTable V)
  | .setOp k v => t.set k v
  | .clearOp => some t.clear

/-- Apply a sequence of operations left to right. -/
def applyOps {V : Type} : List (TableOp V) → SparseTable V → Option (SparseTable V)
  | [], t => some t
  | op :: ops, t => (applyOp t op).bind (applyOps ops)

/-- An operation that never stores the empty sentinel itself. -/
def TableOp.nonSentinel {V : Type} [DecidableEq V] (emptyV : V) : TableOp V → Bool
  | .setOp _ v => decide (v ≠ emptyV)
  | .clearOp => true

namespace Thread

/-- The `impl_base` / `impl_type<F>` hierarchy of
`osmium::thread::function_wrapper` (function_wrapper.hpp lines 190-216):
`base` is a plain `impl_base` (built by the `function_wrapper(int)`
shutdown constructor), `wrapped f` is an `impl_type<F>` owning the
callable `f`. -/
inductive FnImpl (S : Type) where
  | base
  | wrapped (f : S → S)

/-- The virtual `call()`: `impl_base::call` (lines 194-196) runs nothing
and returns `true`; `impl_type::call` (lines 211-214) runs `m_functor()`
once and returns `false`.  The callable's effect is one application of the
transformer to the state. -/
def FnImpl.callImpl {S : Type} : FnImpl S → S → Bool × S
  | .base, s => (true, s)
  | .wrapped f, s => (false, f s)

/-- `osmium::thread::function_wrapper`: a `std::unique_ptr<impl_base> impl`,
`none` when the pointer is null (the `Empty` state). -/
structure function_wrapper (S : Type) where
  impl : Option (FnImpl S)

/-- The template constructor `function_wrapper(TFunction&& f)` (lines
222-226): wraps the callable as `Work`. -/
def function_wrapper.ofCallable {S : Type} (f : S → S) : function_wrapper S :=
  ⟨some (.wrapped f)⟩

/-- The `explicit function_wrapper(int)` constructor (lines 231-233): the
shutdown sentinel, holding a plain `impl_base`. -/
def function_wrapper.shutdown (S : Type) : function_wrapper S :=
  ⟨some .base⟩

/-- The default constructor (line 239): `Empty`, a null `impl`. -/
def function_wrapper.mkEmpty (S : Type) : function_wrapper S :=
  ⟨none⟩

/-- `operator()` (lines 235-237): `impl->call()`.  Invoking with a null
`impl` is undefined behavior, modelled as `none`; otherwise the result is
the returned `Bool` and the state after the (possible) callable run. -/
def function_wrapper.call {S : Type} (w : function_wrapper S) (s : S) :
    Option (Bool × S) :=
  w.impl.map (fun i => i.callImpl s)

/-- `explicit operator bool()` (lines 255-257): the validity check,
`true` iff `impl` is non-null. -/
def function_wrapper.isValid {S : Type} (w : function_wrapper S) : Bool :=
  w.impl.isSome

/-- The move constructor (lines 241-243): `impl(std::move(other.impl))`.
Result: `(the constructed handle, the moved-from source)` — the destination
takes the pointer, the source's pointer becomes null. -/
def function_wrapper.moveFrom {S : Type} (w : function_wrapper S) :
    function_wrapper S × function_wrapper S :=
  (⟨w.impl⟩, ⟨none⟩)

/-- Move assignment (lines 245-248): `impl = std::move(other.impl)`.
Result: `(the assigned-to handle, the moved-from source)`. -/
def function_wrapper.moveAssign {S : Type} (_dst src : function_wrapper S) :
    function_wrapper S × function_wrapper S :=
  (⟨src.impl⟩, ⟨none⟩)

end Thread

/-- Invariant of a slot sequence: no assigned slot holds the sentinel.  It
holds whenever `set` was never called with the sentinel as the value, and it
makes the assigned-slot count (`num_nonempty`, what `used_memory` uses)
coincide with the occupied-slot count of the spec. -/
def goodList {V : Type} (emptyV : V) (l : List (Option V)) : Prop :=
  ∀ v : V, some v ∈ l → v ≠ emptyV

/-- A concrete table with an occupied slot at position `2^31`, reachable as
`SparseTable<TId, TValue>` with `grow_size = 1` after `set(2^31, 1)`:
`2^31 + 1` slots, only the last one assigned (value 1, sentinel 0). -/
def bigTable : SparseTable Nat :=
  ⟨1, List.replicate (2 ^ 31) none ++ [some 1]⟩

/-- A 1-byte value encoding for `V = Bool` (used to instantiate the
round-trip theorem at a concrete index). -/
def encVB (b : Bool) : List Nat := [if b then 1 else 0]

/-- The matching 1-byte value decoding for `V = Bool`. -/
def decVB (bs : List Nat) : Bool := bs.headD 0 == 1

/-! ## Theorems for the claims -/

open Thread

/-- C5: a task handle holding Work wrapping a callable, when invoked,
executes the callable exactly once (the post-state is one application of the
transformer) and returns `false`; a handle constructed as the shutdown
sentinel, when invoked, executes no user code (the state is unchanged) and
returns `true`. -/
theorem invoke_work_and_shutdown (S : Type) (f : S → S) (s : S) :
    (function_wrapper.ofCallable f).call s = some (false, f s) ∧
    (function_wrapper.shutdown S).call s = some (true, s) :=
  ⟨rfl, rfl⟩

/-- C6: for every valid task handle, after a move construction or a move
assignment from it, the source fails the validity check, the destination
passes it, and invoking the destination yields exactly the original handle's
invocation outcome (same boolean, same one-time effect).  (Copying is
disallowed in the source by `= delete`, lines 250-251, a type-level fact;
the model only provides the move operations.) -/
theorem move_transfers_ownership (S : Type) (w dst : function_wrapper S)
    (h : w.isValid = true) :
    (w.moveFrom.2.isValid = false ∧ w.moveFrom.1.isValid = true ∧
      ∀ s, w.moveFrom.1.call s = w.call s) ∧
    ((dst.moveAssign w).2.isValid = false ∧ (dst.moveAssign w).1.isValid = true ∧
      ∀ s, (dst.moveAssign w).1.call s = w.call s) := by
  refine ⟨⟨rfl, h, fun s => rfl⟩, ⟨rfl, h, fun s => rfl⟩⟩

/-- Witness for C6 at a concrete handle wrapping the counter increment
`Nat.succ`: the moved-from source is invalid and the destination's invocation
increments the counter once and returns `false`. -/
theorem move_transfers_ownership_witness :
    (function_wrapper.ofCallable Nat.succ).isValid = true ∧
    ((function_wrapper.ofCallable Nat.succ).moveFrom.2.isValid = false ∧
      (function_wrapper.ofCallable Nat.succ).moveFrom.1.call 0 = some (false, 1)) := by
  have h := move_transfers_ownership Nat (function_wrapper.ofCallable Nat.succ)
    (function_wrapper.mkEmpty Nat) rfl
  exact ⟨rfl, h.1.1, by rw [h.1.2.2 0]; rfl⟩

/-! ### Helper lemmas about `set` -/

theorem resizeSlots_length {V : Type} (l : List (Option V)) (n : Nat) :
    (SparseTable.resizeSlots l n).length = n := by
  simp [SparseTable.resizeSlots]
  omega

theorem set_of_le {V : Type} (t : SparseTable V) {k : Nat} (v : V)
    (hle : t.m_elements.length ≤ k) :
    t.set k v =
      if k < (k + t.m_grow_size) % idMod then
        some { t with
                m_elements := List.set
                  (SparseTable.resizeSlots t.m_elements ((k + t.m_grow_size) % idMod))
                  k (some v) }
      else none := by
  unfold SparseTable.set
  simp only [if_pos hle, resizeSlots_length]

theorem set_of_lt {V : Type} (t : SparseTable V) {k : Nat} (v : V)
    (hlt : k < t.m_elements.length) :
    t.set k v = some { t with m_elements := t.m_elements.set k (some v) } := by
  unfold SparseTable.set
  simp only [if_neg (Nat.not_le.mpr hlt), if_pos hlt]

/-- C1: `get(k)` reports NotFound (`none`) if and only if `k ≥ capacity` or
the slot at position `k` equals the empty sentinel; there is no other error
outcome, and otherwise `get` returns the stored value. -/
theorem get_notFound_iff {V : Type} [DecidableEq V] (emptyV : V)
    (t : SparseTable V) (k : Nat) :
    t.get emptyV k =
      if t.size ≤ k ∨ t.slotAt emptyV k = emptyV then none
      else some (t.slotAt emptyV k) := by
  unfold SparseTable.get
  by_cases h1 : t.size ≤ k
  · simp [h1]
  · by_cases h2 : t.slotAt emptyV k = emptyV <;> simp [h1, h2]

/-- C10: a `set(k, v)` with `k < capacity` completes, leaves the capacity
unchanged, and changes no slot other than slot `k`. -/
theorem set_in_range_frame {V : Type} (t : SparseTable V) (k : Nat) (v : V)
    (hk : k < t.size) :
    t.set k v = some { t with m_elements := t.m_elements.set k (some v) } ∧
    (t.m_elements.set k (some v)).length = t.size ∧
    ∀ j, j ≠ k →
      (t.m_elements.set k (some v)).getD j none = t.m_elements.getD j none := by
  refine ⟨set_of_lt t v hk, by simp [SparseTable.size], fun j hj => ?_⟩
  simp [List.getD, List.getElem?_set_ne (Ne.symm hj)]

/-- Witness for C10: writing slot 0 of a fresh 2-slot index leaves slot 1
unchanged and the result is exactly the in-place update. -/
theorem set_in_range_frame_witness :
    (SparseTable.mkTable Nat 2).set 0 7 =
      some { SparseTable.mkTable Nat 2 with
              m_elements := (SparseTable.mkTable Nat 2).m_elements.set 0 (some 7) } ∧
    ((SparseTable.mkTable Nat 2).m_elements.set 0 (some 7)).getD 1 none =
      (SparseTable.mkTable Nat 2).m_elements.getD 1 none := by
  have h := set_in_range_frame (SparseTable.mkTable Nat 2) 0 7 (by decide)
  exact ⟨h.1, h.2.2 1 (by decide)⟩

/-- C9 fails as stated: with `grow_size = 0` (chosen at construction, which
the claim explicitly includes) and `k = 3 ≥ capacity = 0`, `set(3, 7)`
resizes the table to `3 + 0 = 3` slots and then writes `m_elements[3]`,
which is out of range (undefined behavior, modelled `none`): the call never
completes, so there is no state after it with `size() > 3`. -/
theorem set_size_counterexample :
    (SparseTable.mkTable Nat 0).set 3 7 = none := by decide

/-- C9 amended: every `set(k, v)` call that completes ends with
`size() > k`, and the call does complete whenever `k < capacity` or
(`grow_size ≥ 1` and `k + grow_size < 2^64`); with `grow_size = 0` and
`k ≥ capacity` the slot write is out of range and there is no completed
call. -/
theorem set_size_gt_key {V : Type} (t : SparseTable V) (k : Nat) (v : V)
    (h : k < t.size ∨ (1 ≤ t.m_grow_size ∧ k + t.m_grow_size < 2 ^ 64)) :
    (t.set k v).isSome = true ∧ ∀ u, t.set k v = some u → k < u.size := by
  by_cases hlt : k < t.m_elements.length
  · rw [set_of_lt t v hlt]
    exact ⟨rfl, fun u hu => by cases hu; simpa [SparseTable.size] using hlt⟩
  · have hle : t.m_elements.length ≤ k := Nat.not_lt.mp hlt
    have hg : 1 ≤ t.m_grow_size ∧ k + t.m_grow_size < 2 ^ 64 := by
      rcases h with h | h
      · exact absurd h (by simpa [SparseTable.size] using hlt)
      · exact h
    have hmod : (k + t.m_grow_size) % idMod = k + t.m_grow_size := by
      unfold idMod
      omega
    have hklt : k < (k + t.m_grow_size) % idMod := by
      rw [hmod]
      omega
    rw [set_of_le t v hle, if_pos hklt]
    refine ⟨rfl, fun u hu => ?_⟩
    cases hu
    simp [SparseTable.size, resizeSlots_length, hmod]
    omega

/-- Witness for C9: on a fresh 2-slot index, `set(0, 5)` completes and the
resulting table has `size() > 0`. -/
theorem set_size_gt_key_witness :
    ((SparseTable.mkTable Nat 2).set 0 5).isSome = true ∧
    0 < (⟨2, [some 5, none]⟩ : SparseTable Nat).size := by
  have h := set_size_gt_key (SparseTable.mkTable Nat 2) 0 5 (Or.inl (by decide))
  exact ⟨h.1, h.2 ⟨2, [some 5, none]⟩ (by decide)⟩

/-- C8: a completed `set` never decreases the capacity; `clear()` resets the
capacity to 0 and afterwards `get` reports NotFound for every key.  (The
`const` operations `get`, `size`, `used_memory`, `dump_as_list` do not
change the state at all — they are pure functions of it in this model.) -/
theorem capacity_monotone_clear {V : Type} [DecidableEq V] (emptyV : V)
    (t t' : SparseTable V) (k : Nat) (v : V) (hs : t.set k v = some t') :
    t.size ≤ t'.size ∧ t.clear.size = 0 ∧ ∀ j, t.clear.get emptyV j = none := by
  refine ⟨?_, rfl, fun j => by simp [SparseTable.get, SparseTable.clear, SparseTable.size]⟩
  by_cases hlt : k < t.m_elements.length
  · rw [set_of_lt t v hlt] at hs
    cases hs
    simp [SparseTable.size]
  · have hle : t.m_elements.length ≤ k := Nat.not_lt.mp hlt
    rw [set_of_le t v hle] at hs
    by_cases hc : k < (k + t.m_grow_size) % idMod
    · rw [if_pos hc] at hs
      cases hs
      simp only [SparseTable.size, List.length_set, resizeSlots_length]
      omega
    · rw [if_neg hc] at hs
      cases hs

/-- Witness for C8 at a concrete index: a completed `set` kept the capacity,
and after `clear()` the size is 0 and `get(3)` is NotFound. -/
theorem capacity_monotone_clear_witness :
    (SparseTable.mkTable Nat 1).size ≤ (⟨1, [some 5]⟩ : SparseTable Nat).size ∧
    (SparseTable.mkTable Nat 1).clear.size = 0 ∧
    (SparseTable.mkTable Nat 1).clear.get 0 3 = none := by
  have h := capacity_monotone_clear 0 (SparseTable.mkTable Nat 1)
    ⟨1, [some 5]⟩ 0 5 (by decide)
  exact ⟨h.1, h.2.1, h.2.2 3⟩

/-- C2 fails as stated, at two inputs with `key ≥ capacity`.  With
`grow_size = 0`: `set(0, 5)` on a fresh empty index resizes the table to
`0 + 0 = 0` slots and the write at slot 0 is out of range (undefined
behavior, modelled `none`), so no value is written and there is no
completed call after which `get(0)` returns 5.  With `grow_size = 2` and
`key = 2^64 - 1`: the `TId` sum `key + grow_size` wraps to 1, the table is
resized (truncated) to 1 slot — not `key + grow_size` — and the write at
the key is out of range. -/
theorem set_growth_counterexample :
    (SparseTable.mkTable Nat 0).set 0 5 = none ∧
    (SparseTable.mkTable Nat 2).set (2 ^ 64 - 1) 5 = none :=
  ⟨by decide, by decide⟩

/-- C2 amended: a `set(key, value)` call with `key ≥ capacity` that
completes (which requires `grow_size ≥ 1` and no 64-bit wrap of
`key + grow_size`; otherwise the slot write is out of range) grows the
capacity to exactly `key + grow_size` — not merely `key + 1` — before
writing, and a subsequent `get(key)` on a non-sentinel value returns the
value. -/
theorem set_growth_exact {V : Type} [DecidableEq V] (emptyV : V)
    (t t' : SparseTable V) (k : Nat) (v : V)
    (hg : t.m_grow_size < 2 ^ 64) (hk : t.size ≤ k)
    (hs : t.set k v = some t') (hv : v ≠ emptyV) :
    t'.size = k + t.m_grow_size ∧ t'.get emptyV k = some v := by
  have hle : t.m_elements.length ≤ k := hk
  rw [set_of_le t v hle] at hs
  by_cases hc : k < (k + t.m_grow_size) % idMod
  · rw [if_pos hc] at hs
    cases hs
    have hmod : (k + t.m_grow_size) % idMod = k + t.m_grow_size := by
      unfold idMod at hc ⊢
      omega
    have hsz : (List.set
        (SparseTable.resizeSlots t.m_elements ((k + t.m_grow_size) % idMod))
        k (some v)).length = k + t.m_grow_size := by
      simp [resizeSlots_length, hmod]
    have hkl : k < k + t.m_grow_size := by
      rw [hmod] at hc
      exact hc
    refine ⟨hsz, ?_⟩
    have hkres : k < (SparseTable.resizeSlots t.m_elements
        ((k + t.m_grow_size) % idMod)).length := by
      rw [resizeSlots_length, hmod]
      exact hkl
    have hslot : SparseTable.slotAt emptyV
        { t with
           m_elements := List.set
             (SparseTable.resizeSlots t.m_elements ((k + t.m_grow_size) % idMod))
             k (some v) } k = v := by
      simp [SparseTable.slotAt, slotRead, List.getD, List.getElem?_set_self, hkres]
    unfold SparseTable.get
    rw [hslot]
    have hns : ¬ (SparseTable.size
        { t with
           m_elements := List.set
             (SparseTable.resizeSlots t.m_elements ((k + t.m_grow_size) % idMod))
             k (some v) } ≤ k) := by
      simp only [SparseTable.size, List.length_set, resizeSlots_length, hmod]
      omega
    rw [if_neg hns, if_neg hv]
  · rw [if_neg hc] at hs
    cases hs

/-- Witness for C2: on a fresh index with `grow_size = 2`, `set(5, 7)`
completes, capacity becomes exactly `5 + 2`, and `get(5)` returns 7. -/
theorem set_growth_exact_witness :
    (SparseTable.mkTable Nat 2).set 5 7 =
      some ⟨2, [none, none, none, none, none, some 7, none]⟩ ∧
    (⟨2, [none, none, none, none, none, some 7, none]⟩ : SparseTable Nat).size = 5 + 2 ∧
    (⟨2, [none, none, none, none, none, some 7, none]⟩ : SparseTable Nat).get 0 5 =
      some 7 := by
  have hs : (SparseTable.mkTable Nat 2).set 5 7 =
      some ⟨2, [none, none, none, none, none, some 7, none]⟩ := by decide
  have h := set_growth_exact 0 (SparseTable.mkTable Nat 2)
    ⟨2, [none, none, none, none, none, some 7, none]⟩ 5 7
    (by decide) (by decide) hs (by decide)
  exact ⟨hs, h.1, h.2⟩

/-! ### Occupancy accounting (C3) -/

theorem goodList_resize {V : Type} (e : V) (l : List (Option V)) (n : Nat)
    (hg : goodList e l) : goodList e (SparseTable.resizeSlots l n) := by
  intro v hv
  unfold SparseTable.resizeSlots at hv
  rcases List.mem_append.mp hv with h | h
  · exact hg v (List.mem_of_mem_take h)
  · exact absurd (List.eq_of_mem_replicate h) (by simp)

theorem set_preserves_good {V : Type} (e : V) (t t' : SparseTable V) (k : Nat)
    (v : V) (hv : v ≠ e) (hs : t.set k v = some t')
    (hg : goodList e t.m_elements) : goodList e t'.m_elements := by
  have hset : ∀ l : List (Option V), goodList e l →
      goodList e (l.set k (some v)) := by
    intro l hl u hu
    rcases List.mem_or_eq_of_mem_set hu with h | h
    · exact hl u h
    · injection h with h2
      subst h2
      exact hv
  by_cases hlt : k < t.m_elements.length
  · rw [set_of_lt t v hlt] at hs
    cases hs
    exact hset _ hg
  · rw [set_of_le t v (Nat.not_lt.mp hlt)] at hs
    by_cases hc : k < (k + t.m_grow_size) % idMod
    · rw [if_pos hc] at hs
      cases hs
      exact hset _ (goodList_resize e _ _ hg)
    · rw [if_neg hc] at hs
      cases hs

theorem applyOps_preserves_good {V : Type} [DecidableEq V] (e : V) :
    ∀ (ops : List (TableOp V)) (t t' : SparseTable V),
      (∀ op ∈ ops, op.nonSentinel e = true) →
      applyOps ops t = some t' → goodList e t.m_elements →
      goodList e t'.m_elements := by
  intro ops
  induction ops with
  | nil =>
    intro t t' _ h hg
    cases h
    exact hg
  | cons op ops ih =>
    intro t t' hops happ hg
    unfold applyOps at happ
    cases hop : applyOp t op with
    | none =>
      rw [hop] at happ
      cases happ
    | some tm =>
      rw [hop, Option.some_bind] at happ
      refine ih tm t' (fun o ho => hops o (List.mem_cons_of_mem _ ho)) happ ?_
      cases op with
      | setOp k v =>
        have hv : v ≠ e := by
          have hh := hops _ (List.mem_cons_self _ _)
          simpa [TableOp.nonSentinel] using hh
        exact set_preserves_good e t tm k v hv hop hg
      | clearOp =>
        cases hop
        intro v hv
        simp [SparseTable.clear] at hv

theorem goodList_filter_eq {V : Type} [DecidableEq V] (e : V)
    (l : List (Option V)) (hg : goodList e l) :
    l.filter Option.isSome = l.filter (fun s => decide (slotRead e s ≠ e)) := by
  apply List.filter_congr
  intro s hs
  cases s with
  | none => simp [slotRead]
  | some v => simp [slotRead, hg v hs]

/-- C3 fails as stated: on a fresh 8-slot index (`grow_size = 8`), the call
`set(0, sentinel)` (storing the empty sentinel itself, which the claim
explicitly includes) marks slot 0 assigned, so `used_memory()` is
`8/8 + 1·sizeof(V) = 9` (for `sizeof(V) = 8`), while the slot now equals
the sentinel and is therefore not occupied: the claim's formula gives
`8/8 + 0·8 = 1`. -/
theorem used_memory_sentinel_counterexample :
    (SparseTable.mkTable Nat 8).set 0 0 =
      some ⟨8, [some 0, none, none, none, none, none, none, none]⟩ ∧
    (⟨8, [some 0, none, none, none, none, none, none, none]⟩ :
        SparseTable Nat).used_memory 8 ≠
      (⟨8, [some 0, none, none, none, none, none, none, none]⟩ :
          SparseTable Nat).size / 8 +
        (⟨8, [some 0, none, none, none, none, none, none, none]⟩ :
            SparseTable Nat).occupiedCount 0 * 8 :=
  ⟨by decide, by decide⟩

/-- C3 amended: after every completed sequence of `set`/`clear` operations
in which `set` never stores the empty sentinel itself, `used_memory()`
equals `capacity/8 + occupied_count · sizeof(V)` with `occupied_count` the
number of slots holding a value other than the sentinel.  (In general the
code charges `num_nonempty()` — the number of slots ever assigned — which
exceeds the occupied count when the sentinel is stored via `set`.) -/
theorem used_memory_formula_no_sentinel {V : Type} [DecidableEq V]
    (emptyV : V) (sizeV g : Nat) (ops : List (TableOp V)) (t : SparseTable V)
    (hops : ∀ op ∈ ops, op.nonSentinel emptyV = true)
    (happ : applyOps ops (SparseTable.mkTable V g) = some t) :
    t.used_memory sizeV = t.size / 8 + t.occupiedCount emptyV * sizeV := by
  have hg : goodList emptyV t.m_elements := by
    refine applyOps_preserves_good emptyV ops _ t hops happ ?_
    intro v hv
    exact absurd (List.eq_of_mem_replicate hv) (by simp)
  unfold SparseTable.used_memory SparseTable.num_nonempty SparseTable.occupiedCount
  rw [goodList_filter_eq emptyV _ hg]

/-- Witness for C3 at the concrete sequence
`set(1, 5); clear(); set(0, 3)` on a fresh 2-slot index: the memory formula
holds on the resulting table. -/
theorem used_memory_formula_no_sentinel_witness :
    (⟨2, [some 3, none]⟩ : SparseTable Nat).used_memory 8 =
      (⟨2, [some 3, none]⟩ : SparseTable Nat).size / 8 +
        (⟨2, [some 3, none]⟩ : SparseTable Nat).occupiedCount 0 * 8 :=
  used_memory_formula_no_sentinel 0 8 2
    [TableOp.setOp 1 5, TableOp.clearOp, TableOp.setOp 0 3]
    ⟨2, [some 3, none]⟩ (by decide) (by decide)

/-! ### Dump and serialization (C4, C7) -/

theorem cppCounterId_eq_self {p : Nat} (hp : p < 2 ^ 31) : cppCounterId p = p := by
  unfold cppCounterId
  split <;> omega

theorem cppCounterId_lt (p : Nat) : cppCounterId p < 2 ^ 64 := by
  unfold cppCounterId
  split <;> omega

theorem dumpLoop_replicate_none {V : Type} [DecidableEq V] (e : V) (m : Nat)
    (rest : List (Option V)) (p : Nat) :
    dumpLoop e (List.replicate m none ++ rest) p = dumpLoop e rest (p + m) := by
  induction m generalizing p with
  | zero => simp
  | succ n ih =>
    rw [List.replicate_succ, List.cons_append]
    simp [dumpLoop, slotRead]
    rw [ih]
    congr 1
    omega

theorem specPairsLoop_replicate_none {V : Type} [DecidableEq V] (e : V) (m : Nat)
    (rest : List (Option V)) (p : Nat) :
    specPairsLoop e (List.replicate m none ++ rest) p = specPairsLoop e rest (p + m) := by
  induction m generalizing p with
  | zero => simp
  | succ n ih =>
    rw [List.replicate_succ, List.cons_append]
    simp [specPairsLoop, slotRead]
    rw [ih]
    congr 1
    omega

theorem replicate_set_last {α : Type} (a x : α) (m : Nat) :
    (List.replicate (m + 1) a).set m x = List.replicate m a ++ [x] := by
  induction m with
  | zero => rfl
  | succ n ih =>
    rw [List.replicate_succ]
    show a :: (List.replicate (n + 1) a).set n x = List.replicate (n + 1) a ++ [x]
    rw [ih, List.replicate_succ, List.cons_append]

theorem bigTable_reachable :
    (SparseTable.mkTable Nat 1).set (2 ^ 31) 1 = some bigTable := by
  have h1 : SparseTable.resizeSlots (List.replicate 1 (none : Option Nat)) (2 ^ 31 + 1)
      = List.replicate (2 ^ 31 + 1) none := by
    unfold SparseTable.resizeSlots
    rw [List.take_of_length_le (by norm_num), ← List.replicate_add]
    norm_num
  have hle : (SparseTable.mkTable Nat 1).m_elements.length ≤ 2 ^ 31 := by
    simp [SparseTable.mkTable]
  rw [set_of_le _ _ hle]
  have hmod : (2 ^ 31 + (SparseTable.mkTable Nat 1).m_grow_size) % idMod
      = 2 ^ 31 + 1 := by
    show (2 ^ 31 + 1) % idMod = 2 ^ 31 + 1
    unfold idMod
    norm_num
  rw [hmod, if_pos (by norm_num : (2 : Nat) ^ 31 < 2 ^ 31 + 1)]
  show some _ = some bigTable
  rw [Option.some.injEq]
  show SparseTable.mk 1 _ = bigTable
  unfold bigTable SparseTable.mkTable
  rw [SparseTable.mk.injEq]
  refine ⟨rfl, ?_⟩
  show (SparseTable.resizeSlots (List.replicate 1 none) (2 ^ 31 + 1)).set
      (2 ^ 31) (some 1) = _
  rw [h1, replicate_set_last]

theorem bigTable_dump : bigTable.dump_as_list 0 = [(2 ^ 64 - 2 ^ 31, 1)] := by
  unfold bigTable SparseTable.dump_as_list
  rw [dumpLoop_replicate_none]
  simp only [dumpLoop, slotRead, Option.getD_some, Nat.zero_add]
  rw [if_neg (by norm_num)]
  have h : cppCounterId (2 ^ 31) = 2 ^ 64 - 2 ^ 31 := by
    unfold cppCounterId
    split <;> omega
  rw [h]

/-- C4 (code bug): the dump loop counter `n` is a 32-bit `int` while slot
positions range over the 64-bit id space (the class asserts it is for 64-bit
machines and the spec fixes 8-byte unsigned keys).  On a reachable index
with an occupied slot at position `2^31` (grow_size 1, after `set(2^31, 1)`,
sentinel 0), the emitted record's key is `2^64 - 2^31` (the wrapped counter
sign-extended into the 8-byte key), not the slot position `2^31`. -/
theorem dump_key_wrap_bug :
    (SparseTable.mkTable Nat 1).set (2 ^ 31) 1 = some bigTable ∧
    bigTable.dump_as_list 0 = [(2 ^ 64 - 2 ^ 31, 1)] ∧
    (2 ^ 64 - 2 ^ 31 : Nat) ≠ 2 ^ 31 :=
  ⟨bigTable_reachable, bigTable_dump, by norm_num⟩

theorem dumpLoop_eq_specPairsLoop {V : Type} [DecidableEq V] (e : V) :
    ∀ (slots : List (Option V)) (p : Nat), p + slots.length ≤ 2 ^ 31 →
      dumpLoop e slots p = specPairsLoop e slots p := by
  intro slots
  induction slots with
  | nil => intro p _; rfl
  | cons s rest ih =>
    intro p hp
    rw [List.length_cons] at hp
    have hpk : cppCounterId p = p := cppCounterId_eq_self (by omega)
    simp only [dumpLoop, specPairsLoop, hpk]
    by_cases h : slotRead e s = e
    · simp [h, ih (p + 1) (by omega)]
    · simp [h, ih (p + 1) (by omega)]

theorem dumpLoop_key_lt {V : Type} [DecidableEq V] (e : V) :
    ∀ (slots : List (Option V)) (p : Nat) (r : Nat × V),
      r ∈ dumpLoop e slots p → r.1 < 2 ^ 64 := by
  intro slots
  induction slots with
  | nil =>
    intro p r hr
    simp [dumpLoop] at hr
  | cons s rest ih =>
    intro p r hr
    simp only [dumpLoop] at hr
    by_cases h : slotRead e s = e
    · rw [if_pos h] at hr
      exact ih (p + 1) r hr
    · rw [if_neg h] at hr
      rcases List.mem_cons.mp hr with h2 | h2
      · subst h2
        exact cppCounterId_lt p
      · exact ih (p + 1) r h2

theorem encodeKey_length (k : Nat) : (encodeKey k).length = 8 := rfl

theorem decodeKeyLE_encodeKey {k : Nat} (hk : k < 2 ^ 64) :
    decodeKeyLE (encodeKey k) = k := by
  simp only [decodeKeyLE, encodeKey, List.foldr]
  omega

theorem parseRecordsAux_encodeRecords {V : Type} (sizeV : Nat)
    (encV : V → List Nat) (decV : List Nat → V)
    (hlen : ∀ v, (encV v).length = sizeV) (hdec : ∀ v, decV (encV v) = v) :
    ∀ (rs : List (Nat × V)) (fuel : Nat),
      (∀ r ∈ rs, r.1 < 2 ^ 64) → (encodeRecords encV rs).length ≤ fuel →
      parseRecordsAux sizeV decV fuel (encodeRecords encV rs) = rs := by
  intro rs
  induction rs with
  | nil =>
    intro fuel _ _
    cases fuel <;> rfl
  | cons r rs ih =>
    intro fuel hks hfuel
    obtain ⟨k, v⟩ := r
    have hbytes : encodeRecords encV ((k, v) :: rs)
        = encodeKey k ++ (encV v ++ encodeRecords encV rs) := by
      simp [encodeRecords, List.append_assoc]
    have htake : (encodeKey k ++ (encV v ++ encodeRecords encV rs)).take 8
        = encodeKey k := List.take_left' (encodeKey_length k)
    have hdrop8 : (encodeKey k ++ (encV v ++ encodeRecords encV rs)).drop 8
        = encV v ++ encodeRecords encV rs := List.drop_left' (encodeKey_length k)
    have htakeS : ((encodeKey k ++ (encV v ++ encodeRecords encV rs)).drop 8).take sizeV
        = encV v := by
      rw [hdrop8]
      exact List.take_left' (hlen v)
    have hdropR : (encodeKey k ++ (encV v ++ encodeRecords encV rs)).drop (8 + sizeV)
        = encodeRecords encV rs := by
      rw [show encodeKey k ++ (encV v ++ encodeRecords encV rs)
          = (encodeKey k ++ encV v) ++ encodeRecords encV rs by
        simp [List.append_assoc]]
      exact List.drop_left' (by simp [encodeKey_length, hlen v])
    rw [hbytes] at hfuel ⊢
    cases fuel with
    | zero =>
      rw [List.length_append, encodeKey_length] at hfuel
      omega
    | succ f =>
      obtain ⟨b, bs, hb⟩ : ∃ b bs,
          encodeKey k ++ (encV v ++ encodeRecords encV rs) = b :: bs := ⟨_, _, rfl⟩
      rw [hb]
      simp only [parseRecordsAux]
      rw [← hb, htake, htakeS, hdropR]
      rw [decodeKeyLE_encodeKey (hks (k, v) (List.mem_cons_self _ _)), hdec v]
      rw [ih f (fun u hu => hks u (List.mem_cons_of_mem _ hu)) ?hf]
      case hf =>
        rw [List.length_append, encodeKey_length, List.length_append, hlen v] at hfuel
        omega

/-- C7 fails as stated: on the reachable index `bigTable` (one occupied
slot at position `2^31`, value 1), the dumped record carries the wrapped
key `2^64 - 2^31` (see C4), so parsing the dump back yields
`[(2^64 - 2^31, 1)]`, not the occupied-slot set `[(2^31, 1)]`. -/
theorem dump_roundtrip_counterexample :
    parseRecords 8 decodeKeyLE (bigTable.dumpBytes 0 encodeKey) ≠
      bigTable.occupiedPairs 0 := by
  have h1 : bigTable.dumpBytes 0 encodeKey
      = encodeRecords encodeKey [(2 ^ 64 - 2 ^ 31, 1)] := by
    unfold SparseTable.dumpBytes
    rw [bigTable_dump]
  have h2 : bigTable.occupiedPairs 0 = [(2 ^ 31, 1)] := by
    unfold bigTable SparseTable.occupiedPairs
    rw [specPairsLoop_replicate_none]
    simp only [specPairsLoop, slotRead, Option.getD_some, Nat.zero_add]
    rw [if_neg (by norm_num)]
  rw [h1, h2]
  decide

/-- C7 amended: for every index whose capacity is at most `2^31` (so every
occupied position fits the dump loop's 32-bit `int` counter, see C4), and
every injective fixed-width value encoding, serializing the occupied slots
via dump and parsing the byte stream back as fixed-width records
reconstructs exactly the `(key, value)` pairs of the occupied slots, for
any number of occupied slots and any key gaps. -/
theorem dump_roundtrip {V : Type} [DecidableEq V] (emptyV : V) (sizeV : Nat)
    (encV : V → List Nat) (decV : List Nat → V) (t : SparseTable V)
    (hlen : ∀ v, (encV v).length = sizeV) (hdec : ∀ v, decV (encV v) = v)
    (hcap : t.size ≤ 2 ^ 31) :
    parseRecords sizeV decV (t.dumpBytes emptyV encV) = t.occupiedPairs emptyV := by
  have hkeys : ∀ r ∈ t.dump_as_list emptyV, r.1 < 2 ^ 64 :=
    fun r hr => dumpLoop_key_lt emptyV t.m_elements 0 r hr
  have hparse : parseRecords sizeV decV (t.dumpBytes emptyV encV)
      = t.dump_as_list emptyV := by
    unfold parseRecords SparseTable.dumpBytes
    exact parseRecordsAux_encodeRecords sizeV encV decV hlen hdec _ _ hkeys (le_refl _)
  rw [hparse]
  unfold SparseTable.dump_as_list SparseTable.occupiedPairs
  exact dumpLoop_eq_specPairsLoop emptyV t.m_elements 0
    (by simpa [SparseTable.size] using hcap)

/-- Witness for C7 at a concrete 2-slot Bool index with one occupied slot
and a 1-byte value encoding: the parsed dump equals the occupied pairs. -/
theorem dump_roundtrip_witness :
    parseRecords 1 decVB
        ((⟨2, [none, some true]⟩ : SparseTable Bool).dumpBytes false encVB) =
      (⟨2, [none, some true]⟩ : SparseTable Bool).occupiedPairs false :=
  dump_roundtrip false 1 encVB decVB ⟨2, [none, some true]⟩
    (by decide) (by decide) (by decide)

end Osmium
